import Mathlib

/-!
Shallow embedding of the `r2r_regular_markers` crate (src/src/lib.rs): a
marker server that stages updates, commits them into an authoritative
store with `apply_changes`, and periodically publishes the full store and
cleans it up (`marker_array_publisher`).

`HashMap<String, V>` is modelled as an association list: the list order
stands for the map's unspecified iteration order, and keys are unique in
any state reachable through the operations (stated as a `Nodup` hypothesis
where a theorem needs it).  The `f64` scalars of the ROS messages are
carried opaquely — no arithmetic is ever performed on them — so they are
modelled as `Int`.  The `println!` calls are modelled as `Report` values
returned next to the new state.
-/

/-- Stamp type (builtin_interfaces/Time) carried inside a `Header`. -/
structure RosTime where
  sec : Int
  nanosec : Int
deriving DecidableEq

/-- std_msgs/Header, as used by `r2r::std_msgs::msg::Header`. -/
structure Header where
  stamp : RosTime
  frame_id : String
deriving DecidableEq

/-- geometry_msgs/Point (f64 coordinates modelled opaquely as `Int`). -/
structure Point where
  x : Int
  y : Int
  z : Int
deriving DecidableEq

/-- geometry_msgs/RosQuaternion (f64 coordinates modelled opaquely as `Int`). -/
structure RosQuaternion where
  x : Int
  y : Int
  z : Int
  w : Int
deriving DecidableEq

/-- geometry_msgs/Pose. -/
structure Pose where
  position : Point
  orientation : RosQuaternion
deriving DecidableEq

/-- geometry_msgs/RosVector3 (marker scale). -/
structure RosVector3 where
  x : Int
  y : Int
  z : Int
deriving DecidableEq

/-- std_msgs/ColorRGBA (f32 components modelled opaquely as `Int`). -/
structure ColorRGBA where
  r : Int
  g : Int
  b : Int
  a : Int
deriving DecidableEq

/-- visualization_msgs/Marker, the payload type used by the server
(`r2r::visualization_msgs::msg::Marker`), with its full field list. -/
structure Marker where
  header : Header
  ns : String
  id : Int
  type_ : Int
  action : Int
  pose : Pose
  scale : RosVector3
  color : ColorRGBA
  lifetime : RosTime
  frame_locked : Bool
  points : List Point
  colors : List ColorRGBA
  text : String
  mesh_resource : String
  mesh_use_embedded_materials : Bool
deriving DecidableEq

/-- `Marker::ADD` of visualization_msgs/Marker as generated by r2r. -/
def Marker.ADD : Int := 0

/-- `Marker::MODIFY` of visualization_msgs/Marker (an alias of ADD: the
message declares `uint8 ADD=0`, `uint8 MODIFY=0`). -/
def Marker.MODIFY : Int := 0

/-- `Marker::DELETE` of visualization_msgs/Marker (`uint8 DELETE=2`);
the cleanup arm `2 =>` in `marker_array_publisher` matches it. -/
def Marker.DELETE : Int := 2

/-- `Marker::DELETEALL` of visualization_msgs/Marker (`uint8 DELETEALL=3`);
the cleanup arm `3 =>` in `marker_array_publisher` matches it. -/
def Marker.DELETEALL : Int := 3

/-- `Marker::default()`: the all-zero message. -/
def defaultMarker : Marker :=
  { header := { stamp := { sec := 0, nanosec := 0 }, frame_id := "" }
    ns := ""
    id := 0
    type_ := 0
    action := 0
    pose := { position := { x := 0, y := 0, z := 0 }
              orientation := { x := 0, y := 0, z := 0, w := 0 } }
    scale := { x := 0, y := 0, z := 0 }
    color := { r := 0, g := 0, b := 0, a := 0 }
    lifetime := { sec := 0, nanosec := 0 }
    frame_locked := false
    points := []
    colors := []
    text := ""
    mesh_resource := ""
    mesh_use_embedded_materials := false }

/-- `enum UpdateType` (src/src/lib.rs:8-13). -/
inductive UpdateType where
  | Add
  | Modify
  | Delete
  | DeleteAll
deriving DecidableEq

/-- `struct UpdateContext` (src/src/lib.rs:17-20). -/
structure UpdateContext where
  update_type : UpdateType
  marker : Marker
deriving DecidableEq

/-- The `println!` lines the library can emit, one constructor per call
site: `insert` prints a confirmation, `apply_changes` prints a line for an
empty stage and one for each Modify/Delete update whose target id is
missing from the store.  `delete` has no print call at all. -/
inductive Report where
  | markerAdded (name : String)
  | noChangesToApply
  | pendingModifyForNonExisting (name : String)
  | pendingDeleteForNonExisting (name : String)
deriving DecidableEq

/-- First binding for `k`, the association-list reading of `HashMap::get`. -/
def lookupKey {α : Type} (l : List (String × α)) (k : String) : Option α :=
  match l with
  | [] => none
  | (k', v) :: rest => if k' = k then some v else lookupKey rest k

/-- `HashMap::contains_key` derived from `lookupKey`. -/
def containsKey {α : Type} (l : List (String × α)) (k : String) : Bool :=
  (lookupKey l k).isSome

/-- `HashMap::insert`: replace the binding of `k` in place, or append a
fresh binding at the end of the iteration order. -/
def insertKey {α : Type} (l : List (String × α)) (k : String) (v : α) :
    List (String × α) :=
  match l with
  | [] => [(k, v)]
  | (k', v') :: rest =>
      if k' = k then (k, v) :: rest else (k', v') :: insertKey rest k v

/-- `HashMap::remove` (with unique keys, dropping every binding of `k`). -/
def removeKey {α : Type} (l : List (String × α)) (k : String) :
    List (String × α) :=
  l.filter (fun p => !(p.1 == k))

/-- In-place mutation through `HashMap::get_mut`: rewrite the value bound
to `k`, leave everything else alone. -/
def modifyKey {α : Type} (l : List (String × α)) (k : String) (f : α → α) :
    List (String × α) :=
  l.map (fun p => if p.1 = k then (p.1, f p.2) else p)

/-- `struct RegularMarkerServer` (src/src/lib.rs:24-29); the two
`Arc<Mutex<HashMap<..>>>` fields are modelled as the owned map values. -/
structure RegularMarkerServer where
  topic : String
  marker_contexts : List (String × Marker)
  pending_updates : List (String × UpdateContext)
deriving DecidableEq

/-- The server state built by `RegularMarkerServer::new`
(src/src/lib.rs:39-80): both maps start empty. -/
def initialServer (topic : String) : RegularMarkerServer :=
  { topic := topic, marker_contexts := [], pending_updates := [] }

/-- `RegularMarkerServer::insert` (src/src/lib.rs:88-104).  The
`entry(..).or_insert_with(..)` followed by unconditional assignment of
both fields collapses to plain map insertion of an `Add` context, and the
function prints one confirmation line. -/
def RegularMarkerServer.insert (s : RegularMarkerServer) (name : String)
    (marker : Marker) : RegularMarkerServer × List Report :=
  let uc : UpdateContext := { update_type := UpdateType.Add, marker := marker }
  ({ s with pending_updates := insertKey s.pending_updates name uc },
   [Report.markerAdded name])

/-- `RegularMarkerServer::delete` (src/src/lib.rs:111-124): stage a
`Delete` update carrying the currently stored marker, but only when `name`
is present in `marker_contexts`; otherwise do nothing (and print
nothing — the function has no else branch). -/
def RegularMarkerServer.delete (s : RegularMarkerServer) (name : String) :
    RegularMarkerServer × List Report :=
  match lookupKey s.marker_contexts name with
  | some marker_context =>
      let uc : UpdateContext :=
        { update_type := UpdateType.Delete, marker := marker_context }
      ({ s with pending_updates := insertKey s.pending_updates name uc }, [])
  | none => (s, [])

/-- One iteration of the `for (name, update_context) in pending_updates`
loop of `apply_changes` (src/src/lib.rs:136-167). -/
def applyUpdate (marker_contexts : List (String × Marker)) (name : String)
    (update_context : UpdateContext) :
    List (String × Marker) × List Report :=
  match update_context.update_type with
  | UpdateType.Add =>
      if containsKey marker_contexts name then (marker_contexts, [])
      else
        (marker_contexts ++
          [(name, { update_context.marker with action := Marker.ADD })], [])
  | UpdateType.Modify =>
      if containsKey marker_contexts name then
        (modifyKey marker_contexts name (fun mc =>
          { mc with
              pose := update_context.marker.pose
              header := update_context.marker.header
              action := Marker.MODIFY }), [])
      else (marker_contexts, [Report.pendingModifyForNonExisting name])
  | UpdateType.Delete =>
      if containsKey marker_contexts name then
        (modifyKey marker_contexts name (fun mc =>
          { mc with action := Marker.DELETE }), [])
      else (marker_contexts, [Report.pendingDeleteForNonExisting name])
  | UpdateType.DeleteAll =>
      (marker_contexts.map (fun p =>
        (p.1, { p.2 with action := Marker.DELETEALL })), [])

/-- The whole update loop of `apply_changes`, folding the staged updates
into `marker_contexts` in the stage's iteration order and collecting the
printed reports. -/
def applyChangesLoop (marker_contexts : List (String × Marker))
    (pending : List (String × UpdateContext)) :
    List (String × Marker) × List Report :=
  match pending with
  | [] => (marker_contexts, [])
  | (name, uc) :: rest =>
      let step := applyUpdate marker_contexts name uc
      let restResult := applyChangesLoop step.1 rest
      (restResult.1, step.2 ++ restResult.2)

/-- `RegularMarkerServer::apply_changes` (src/src/lib.rs:127-170): if the
stage is empty, print and return; otherwise fold the staged updates into
`marker_contexts` and clear the stage. -/
def RegularMarkerServer.apply_changes (s : RegularMarkerServer) :
    RegularMarkerServer × List Report :=
  if s.pending_updates = [] then (s, [Report.noChangesToApply])
  else
    let r := applyChangesLoop s.marker_contexts s.pending_updates
    ({ s with marker_contexts := r.1, pending_updates := [] }, r.2)

/-- The post-publish cleanup loop of `marker_array_publisher`
(src/src/lib.rs:199-211): iterate over a clone of the snapshot taken at
the top of the loop body, removing the binding of a name whose marker
carries action `2` and clearing everything on action `3` (the literal
match arms of the source). -/
def RegularMarkerServer.cleanupLoop (markers : List (String × Marker))
    (iter : List (String × Marker)) : List (String × Marker) :=
  match iter with
  | [] => markers
  | (name, marker) :: rest =>
      if marker.action = 2 then
        RegularMarkerServer.cleanupLoop (removeKey markers name) rest
      else if marker.action = 3 then
        RegularMarkerServer.cleanupLoop [] rest
      else RegularMarkerServer.cleanupLoop markers rest

/-- The full cleanup pass: the loop runs over a clone of the snapshot
while mutating the snapshot it started from. -/
def RegularMarkerServer.cleanup (markers : List (String × Marker)) :
    List (String × Marker) :=
  RegularMarkerServer.cleanupLoop markers markers

/-- Result of one iteration of the publisher loop: either the external
publish call failed and the task panicked via
`.expect("Failed to publish update")`, leaving the shared store as it
was, or the tick completed, publishing the snapshot and writing the
cleaned-up snapshot back into the shared store. -/
inductive TickResult where
  | panicked (msg : String) (marker_contexts : List (String × Marker))
  | ticked (published : List Marker) (marker_contexts : List (String × Marker))
deriving DecidableEq

/-- One iteration of the loop body of `marker_array_publisher`
(src/src/lib.rs:184-216): snapshot the store, build the batch message,
publish (a failed publish panics through `expect` before any cleanup
runs), then run the cleanup pass on the snapshot and write it back.
`publishOk` is the outcome of the external publish call. -/
def RegularMarkerServer.marker_array_publisher_tick (publishOk : Bool)
    (marker_contexts : List (String × Marker)) : TickResult :=
  let markers := marker_contexts
  let update_msg := markers.map (fun p => p.2)
  if publishOk then
    TickResult.ticked update_msg (RegularMarkerServer.cleanup markers)
  else
    TickResult.panicked "Failed to publish update" marker_contexts

/-- The public mutating operations of `RegularMarkerServer`: the `impl`
block exposes exactly `new`, `insert`, `delete` and `apply_changes`
(besides the private publisher task). -/
inductive Op where
  | insertOp (name : String) (marker : Marker)
  | deleteOp (name : String)
  | applyChangesOp
deriving DecidableEq

/-- Run one public operation, keeping the state component. -/
def runOp (s : RegularMarkerServer) (op : Op) : RegularMarkerServer :=
  match op with
  | Op.insertOp name m => (s.insert name m).1
  | Op.deleteOp name => (s.delete name).1
  | Op.applyChangesOp => s.apply_changes.1

/-- Run a sequence of public operations. -/
def runOps (s : RegularMarkerServer) (ops : List Op) : RegularMarkerServer :=
  match ops with
  | [] => s
  | op :: rest => runOps (runOp s op) rest

/-! ### Association-list lemmas -/

theorem lookupKey_append_of_none {α : Type} {l1 : List (String × α)}
    (l2 : List (String × α)) {k : String} (h : lookupKey l1 k = none) :
    lookupKey (l1 ++ l2) k = lookupKey l2 k := by
  induction l1 with
  | nil => rfl
  | cons p rest ih =>
      obtain ⟨a, b⟩ := p
      by_cases hk : a = k
      · simp [lookupKey, hk] at h
      · simp only [lookupKey, hk, if_false, List.cons_append] at h ⊢
        exact ih h

theorem lookupKey_append_of_some {α : Type} {l1 : List (String × α)}
    (l2 : List (String × α)) {k : String} {v : α}
    (h : lookupKey l1 k = some v) :
    lookupKey (l1 ++ l2) k = some v := by
  induction l1 with
  | nil => simp [lookupKey] at h
  | cons p rest ih =>
      obtain ⟨a, b⟩ := p
      by_cases hk : a = k
      · simp only [lookupKey, hk, if_true, List.cons_append, if_pos] at h ⊢
        exact h
      · simp only [lookupKey, hk, if_false, List.cons_append] at h ⊢
        exact ih h

theorem lookupKey_singleton_ne {α : Type} {k k' : String} (v : α)
    (h : k' ≠ k) : lookupKey [(k', v)] k = none := by
  simp [lookupKey, h]

theorem lookupKey_modifyKey_ne {α : Type} (l : List (String × α))
    {k k' : String} (f : α → α) (h : k' ≠ k) :
    lookupKey (modifyKey l k' f) k = lookupKey l k := by
  induction l with
  | nil => rfl
  | cons p rest ih =>
      obtain ⟨a, b⟩ := p
      simp only [modifyKey, List.map_cons] at ih ⊢
      by_cases ha : a = k'
      · have hak : ¬a = k := fun hh => h (ha ▸ hh)
        rw [if_pos ha]
        simp only [lookupKey]
        rw [if_neg hak, if_neg hak]
        exact ih
      · rw [if_neg ha]
        simp only [lookupKey]
        by_cases hk : a = k
        · rw [if_pos hk, if_pos hk]
        · rw [if_neg hk, if_neg hk]
          exact ih

theorem lookupKey_modifyKey_self {α : Type} (l : List (String × α))
    (k : String) (f : α → α) :
    lookupKey (modifyKey l k f) k = (lookupKey l k).map f := by
  induction l with
  | nil => rfl
  | cons p rest ih =>
      obtain ⟨a, b⟩ := p
      simp only [modifyKey, List.map_cons] at ih ⊢
      by_cases hk : a = k
      · rw [if_pos hk]
        simp only [lookupKey]
        rw [if_pos hk, if_pos hk]
        rfl
      · rw [if_neg hk]
        simp only [lookupKey]
        rw [if_neg hk, if_neg hk]
        exact ih

theorem lookupKey_deleteAllMap (l : List (String × Marker)) (k : String) :
    lookupKey (l.map (fun p => (p.1, { p.2 with action := Marker.DELETEALL })))
        k
      = (lookupKey l k).map (fun mk => { mk with action := Marker.DELETEALL }) := by
  induction l with
  | nil => rfl
  | cons p rest ih =>
      obtain ⟨a, b⟩ := p
      by_cases hk : a = k
      · simp [lookupKey, hk]
      · simpa [lookupKey, hk] using ih

theorem containsKey_append_left {α : Type} {l1 : List (String × α)}
    (l2 : List (String × α)) {k : String} (h : containsKey l1 k = true) :
    containsKey (l1 ++ l2) k = true := by
  unfold containsKey at h ⊢
  obtain ⟨v, hv⟩ := Option.isSome_iff_exists.mp h
  rw [lookupKey_append_of_some l2 hv]
  rfl

theorem insertKey_ne_nil {α : Type} (l : List (String × α)) (k : String)
    (v : α) : insertKey l k v ≠ [] := by
  cases l with
  | nil => simp [insertKey]
  | cons p rest =>
      obtain ⟨a, b⟩ := p
      by_cases hk : a = k <;> simp [insertKey, hk]

theorem eq_of_mem_of_mem_of_nodupKeys {α : Type} {l : List (String × α)}
    (h : (l.map Prod.fst).Nodup) {p q : String × α} (hp : p ∈ l) (hq : q ∈ l)
    (hk : p.1 = q.1) : p = q := by
  induction l with
  | nil => cases hp
  | cons a rest ih =>
      rw [List.map_cons, List.nodup_cons] at h
      rcases List.mem_cons.mp hp with hpa | hpr
      · rcases List.mem_cons.mp hq with hqa | hqr
        · exact hpa.trans hqa.symm
        · exfalso
          apply h.1
          have haq : a.1 = q.1 := by rw [← hpa]; exact hk
          rw [haq]
          exact List.mem_map_of_mem Prod.fst hqr
      · rcases List.mem_cons.mp hq with hqa | hqr
        · exfalso
          apply h.1
          have hap : a.1 = p.1 := by rw [← hqa]; exact hk.symm
          rw [hap]
          exact List.mem_map_of_mem Prod.fst hpr
        · exact ih h.2 hpr hqr

theorem lookupKey_append_singleton_ne {α : Type} (l : List (String × α))
    {n x : String} (v : α) (h : n ≠ x) :
    lookupKey (l ++ [(n, v)]) x = lookupKey l x := by
  induction l with
  | nil => simp [lookupKey, h]
  | cons p rest ih =>
      obtain ⟨a, b⟩ := p
      by_cases hk : a = x
      · simp only [List.cons_append, lookupKey, if_pos hk]
      · simp only [List.cons_append, lookupKey, if_neg hk]
        exact ih

/-! ### Cleanup-pass lemmas -/

theorem cleanupLoop_nil (iter : List (String × Marker)) :
    RegularMarkerServer.cleanupLoop [] iter = [] := by
  induction iter with
  | nil => rfl
  | cons p rest ih =>
      obtain ⟨n, mk⟩ := p
      by_cases h2 : mk.action = 2
      · simp only [RegularMarkerServer.cleanupLoop, if_pos h2]
        exact ih
      · by_cases h3 : mk.action = 3
        · simp only [RegularMarkerServer.cleanupLoop, if_neg h2, if_pos h3]
          exact ih
        · simp only [RegularMarkerServer.cleanupLoop, if_neg h2, if_neg h3]
          exact ih

theorem cleanupLoop_three (iter : List (String × Marker)) :
    ∀ markers, (∃ p ∈ iter, p.2.action = 3) →
      RegularMarkerServer.cleanupLoop markers iter = [] := by
  induction iter with
  | nil =>
      intro markers h
      obtain ⟨p, hp, _⟩ := h
      cases hp
  | cons q rest ih =>
      intro markers h
      obtain ⟨n, mk⟩ := q
      by_cases h2 : mk.action = 2
      · simp only [RegularMarkerServer.cleanupLoop, if_pos h2]
        apply ih
        obtain ⟨p, hp, hp3⟩ := h
        rcases List.mem_cons.mp hp with rfl | hpr
        · exfalso
          rw [h2] at hp3
          exact absurd hp3 (by decide)
        · exact ⟨p, hpr, hp3⟩
      · by_cases h3 : mk.action = 3
        · simp only [RegularMarkerServer.cleanupLoop, if_neg h2, if_pos h3]
          exact cleanupLoop_nil rest
        · simp only [RegularMarkerServer.cleanupLoop, if_neg h2, if_neg h3]
          apply ih
          obtain ⟨p, hp, hp3⟩ := h
          rcases List.mem_cons.mp hp with rfl | hpr
          · exact absurd hp3 h3
          · exact ⟨p, hpr, hp3⟩

theorem cleanupLoop_no_three (iter : List (String × Marker)) :
    ∀ markers, (∀ p ∈ iter, p.2.action ≠ 3) →
      RegularMarkerServer.cleanupLoop markers iter
        = markers.filter
            (fun q => !(iter.any (fun p => q.1 == p.1 && p.2.action == 2))) := by
  induction iter with
  | nil =>
      intro markers _
      simp [RegularMarkerServer.cleanupLoop]
  | cons hd rest ih =>
      intro markers hno
      obtain ⟨n, mk⟩ := hd
      have hmk3 : mk.action ≠ 3 := hno (n, mk) (List.mem_cons_self _ _)
      by_cases h2 : mk.action = 2
      · have hb : (mk.action == 2) = true := beq_iff_eq.mpr h2
        simp only [RegularMarkerServer.cleanupLoop, if_pos h2]
        rw [ih (removeKey markers n) (fun p hp => hno p (List.mem_cons_of_mem _ hp))]
        rw [removeKey, List.filter_filter]
        apply List.filter_congr
        intro q _
        simp [List.any_cons, hb, Bool.not_or, Bool.and_comm]
      · have hb : (mk.action == 2) = false := beq_eq_false_iff_ne.mpr h2
        simp only [RegularMarkerServer.cleanupLoop, if_neg h2, if_neg hmk3]
        rw [ih markers (fun p hp => hno p (List.mem_cons_of_mem _ hp))]
        apply List.filter_congr
        intro q _
        simp [List.any_cons, hb]

theorem cleanup_eq (m : List (String × Marker)) (h : (m.map Prod.fst).Nodup) :
    RegularMarkerServer.cleanup m
      = if m.any (fun p => p.2.action == 3) then []
        else m.filter (fun p => !(p.2.action == 2)) := by
  by_cases h3 : m.any (fun p => p.2.action == 3) = true
  · rw [if_pos h3]
    obtain ⟨p, hp, hp3⟩ := List.any_eq_true.mp h3
    exact cleanupLoop_three m m ⟨p, hp, beq_iff_eq.mp hp3⟩
  · rw [if_neg h3]
    have hno : ∀ p ∈ m, p.2.action ≠ 3 := by
      intro p hp hc
      exact h3 (List.any_eq_true.mpr ⟨p, hp, beq_iff_eq.mpr hc⟩)
    rw [RegularMarkerServer.cleanup, cleanupLoop_no_three m m hno]
    apply List.filter_congr
    intro q hq
    have key : m.any (fun p => q.1 == p.1 && p.2.action == 2)
        = (q.2.action == 2) := by
      by_cases hq2 : q.2.action = 2
      · have h1 : m.any (fun p => q.1 == p.1 && p.2.action == 2) = true :=
          List.any_eq_true.mpr ⟨q, hq, by simp [hq2]⟩
        rw [h1, beq_iff_eq.mpr hq2]
      · have h1 : m.any (fun p => q.1 == p.1 && p.2.action == 2) = false := by
          apply List.any_eq_false.mpr
          intro p hp hc
          rw [Bool.and_eq_true, beq_iff_eq, beq_iff_eq] at hc
          have hpq : p = q :=
            eq_of_mem_of_mem_of_nodupKeys h hp hq hc.1.symm
          rw [hpq] at hc
          exact hq2 hc.2
        rw [h1, beq_eq_false_iff_ne.mpr hq2]
    rw [key]

/-! ### Commit-loop lemmas -/

theorem applyChangesLoop_cons (mc : List (String × Marker)) (name : String)
    (uc : UpdateContext) (rest : List (String × UpdateContext)) :
    (applyChangesLoop mc ((name, uc) :: rest)).1
      = (applyChangesLoop (applyUpdate mc name uc).1 rest).1 := rfl

theorem applyChangesLoop_append (l1 : List (String × UpdateContext)) :
    ∀ (mc : List (String × Marker)) (l2 : List (String × UpdateContext)),
      (applyChangesLoop mc (l1 ++ l2)).1
        = (applyChangesLoop (applyChangesLoop mc l1).1 l2).1 := by
  induction l1 with
  | nil => intro mc l2; rfl
  | cons hd rest ih =>
      intro mc l2
      obtain ⟨name, uc⟩ := hd
      rw [List.cons_append, applyChangesLoop_cons, applyChangesLoop_cons]
      exact ih _ l2

theorem containsKey_applyUpdate {mc : List (String × Marker)} (name : String)
    (uc : UpdateContext) {x : String} (h : containsKey mc x = true) :
    containsKey (applyUpdate mc name uc).1 x = true := by
  obtain ⟨ty, m⟩ := uc
  cases ty with
  | Add =>
      by_cases hc : containsKey mc name = true
      · simpa [applyUpdate, hc] using h
      · simp only [applyUpdate, hc, if_false]
        exact containsKey_append_left _ h
  | Modify =>
      by_cases hc : containsKey mc name = true
      · simp only [applyUpdate, hc, if_true]
        unfold containsKey at h ⊢
        by_cases hnx : name = x
        · rw [hnx, lookupKey_modifyKey_self]
          cases hl : lookupKey mc x with
          | none => rw [hl] at h; exact absurd h (by decide)
          | some v => rfl
        · rw [lookupKey_modifyKey_ne _ _ hnx]
          exact h
      · simpa [applyUpdate, hc] using h
  | Delete =>
      by_cases hc : containsKey mc name = true
      · simp only [applyUpdate, hc, if_true]
        unfold containsKey at h ⊢
        by_cases hnx : name = x
        · rw [hnx, lookupKey_modifyKey_self]
          cases hl : lookupKey mc x with
          | none => rw [hl] at h; exact absurd h (by decide)
          | some v => rfl
        · rw [lookupKey_modifyKey_ne _ _ hnx]
          exact h
      · simpa [applyUpdate, hc] using h
  | DeleteAll =>
      simp only [applyUpdate]
      unfold containsKey at h ⊢
      rw [lookupKey_deleteAllMap]
      cases hl : lookupKey mc x with
      | none => rw [hl] at h; exact absurd h (by decide)
      | some v => rfl

theorem containsKey_applyChangesLoop (pending : List (String × UpdateContext)) :
    ∀ (mc : List (String × Marker)) (x : String), containsKey mc x = true →
      containsKey (applyChangesLoop mc pending).1 x = true := by
  induction pending with
  | nil => intro mc x h; exact h
  | cons hd rest ih =>
      intro mc x h
      obtain ⟨name, uc⟩ := hd
      rw [applyChangesLoop_cons]
      exact ih _ x (containsKey_applyUpdate name uc h)

theorem lookupKey_applyChangesLoop_of_ne (x : String)
    (l : List (String × UpdateContext)) :
    ∀ mc, (∀ p ∈ l, p.1 ≠ x) →
      (∀ p ∈ l, p.2.update_type ≠ UpdateType.DeleteAll) →
      lookupKey (applyChangesLoop mc l).1 x = lookupKey mc x := by
  induction l with
  | nil =>
      intro mc _ _
      rfl
  | cons hd rest ih =>
      intro mc hk hda
      obtain ⟨n, uc⟩ := hd
      have hnx : n ≠ x := hk (n, uc) (List.mem_cons_self _ _)
      rw [applyChangesLoop_cons,
        ih _ (fun p hp => hk p (List.mem_cons_of_mem _ hp))
          (fun p hp => hda p (List.mem_cons_of_mem _ hp))]
      obtain ⟨ty, m⟩ := uc
      cases ty with
      | Add =>
          by_cases hc : containsKey mc n = true
          · simp [applyUpdate, hc]
          · simp only [applyUpdate, hc, if_false]
            exact lookupKey_append_singleton_ne mc _ hnx
      | Modify =>
          by_cases hc : containsKey mc n = true
          · simp only [applyUpdate, hc, if_true]
            exact lookupKey_modifyKey_ne _ _ hnx
          · simp [applyUpdate, hc]
      | Delete =>
          by_cases hc : containsKey mc n = true
          · simp only [applyUpdate, hc, if_true]
            exact lookupKey_modifyKey_ne _ _ hnx
          · simp [applyUpdate, hc]
      | DeleteAll =>
          exact absurd rfl
            (hda (n, { update_type := UpdateType.DeleteAll, marker := m })
              (List.mem_cons_self _ _))

theorem lookupKey_applyUpdate_add_of_none {mc : List (String × Marker)}
    {x : String} (m : Marker) (h : lookupKey mc x = none) :
    lookupKey (applyUpdate mc x
        { update_type := UpdateType.Add, marker := m }).1 x
      = some { m with action := Marker.ADD } := by
  have hc : containsKey mc x = false := by
    unfold containsKey
    rw [h]
    rfl
  simp only [applyUpdate, hc, Bool.false_eq_true, if_false]
  rw [lookupKey_append_of_none _ h]
  simp [lookupKey]

theorem insertKey_decomp {α : Type} (l : List (String × α)) (k : String)
    (v : α) (h : (l.map Prod.fst).Nodup) :
    ∃ l1 l2, insertKey l k v = l1 ++ (k, v) :: l2 ∧
      (∀ p ∈ l1, p.1 ≠ k) ∧ (∀ p ∈ l2, p.1 ≠ k) ∧
      (∀ p : String × α, p ∈ l1 ∨ p ∈ l2 → p ∈ l) := by
  induction l with
  | nil =>
      refine ⟨[], [], rfl, ?_, ?_, ?_⟩
      · intro p hp; cases hp
      · intro p hp; cases hp
      · intro p hp; rcases hp with hp | hp <;> cases hp
  | cons hd rest ih =>
      obtain ⟨a, b⟩ := hd
      rw [List.map_cons, List.nodup_cons] at h
      by_cases hk : a = k
      · refine ⟨[], rest, ?_, ?_, ?_, ?_⟩
        · simp [insertKey, hk]
        · intro p hp; cases hp
        · intro p hp hpk
          apply h.1
          have hap : (a, b).1 = p.1 := by simp [hpk, hk]
          rw [hap]
          exact List.mem_map_of_mem Prod.fst hp
        · intro p hp
          rcases hp with hp | hp
          · cases hp
          · exact List.mem_cons_of_mem _ hp
      · obtain ⟨l1, l2, heq, h1, h2, hmem⟩ := ih h.2
        refine ⟨(a, b) :: l1, l2, ?_, ?_, h2, ?_⟩
        · simp only [insertKey, hk, if_false, heq, List.cons_append]
        · intro p hp
          rcases List.mem_cons.mp hp with rfl | hpr
          · exact hk
          · exact h1 p hpr
        · intro p hp
          rcases hp with hp | hp
          · rcases List.mem_cons.mp hp with rfl | hpr
            · exact List.mem_cons_self _ _
            · exact List.mem_cons_of_mem _ (hmem p (Or.inl hpr))
          · exact List.mem_cons_of_mem _ (hmem p (Or.inr hp))

/-! ### Claim theorems -/

/-- Claim C1 (counterexample): the claim says a failed external publish
call leaves the loop running: it reports and proceeds to the next tick.
In the code the publish result is unwrapped with
`.expect("Failed to publish update")`, so on the concrete store holding
one marker the tick panics — it does not complete, no cleanup runs and no
next tick is reached. -/
theorem C1_counterexample :
    RegularMarkerServer.marker_array_publisher_tick false [("a", defaultMarker)]
      = TickResult.panicked "Failed to publish update" [("a", defaultMarker)] := by
  decide

/-- Claim C1 (amended): if the external publish call fails on a tick, the
publisher task panics with the expect message and the loop terminates;
MarkerStore is left exactly as it was, because the cleanup pass and the
write-back never run on that tick. -/
theorem C1_publish_failure_panics (mc : List (String × Marker)) :
    RegularMarkerServer.marker_array_publisher_tick false mc
      = TickResult.panicked "Failed to publish update" mc := rfl

/-- Claim C6: when `apply_changes` applies a staged Add update for a name,
a record `{marker with action := ADD}` is appended when the name is absent
from `marker_contexts`, and the store is left completely untouched — the
existing record keeps both its payload and its action — when the name is
already present. -/
theorem C6_add_semantics (topic : String) (mc : List (String × Marker))
    (name : String) (m : Marker) :
    (RegularMarkerServer.apply_changes
        { topic := topic, marker_contexts := mc,
          pending_updates :=
            [(name, { update_type := UpdateType.Add, marker := m })] }).1.marker_contexts
      = if containsKey mc name then mc
        else mc ++ [(name, { m with action := Marker.ADD })] := by
  by_cases hc : containsKey mc name = true <;>
    simp [RegularMarkerServer.apply_changes, applyChangesLoop, applyUpdate, hc]

/-- Claim C7 (counterexample): the claim says `delete(x)` for an `x`
absent from MarkerStore produces an `UnknownTargetUpdate` report.  On the
fresh server the call returns the state unchanged together with an empty
report list — the code's `delete` has no else branch and prints nothing,
so no report of any kind is produced. -/
theorem C7_counterexample :
    RegularMarkerServer.delete (initialServer "t") "a"
      = (initialServer "t", []) := by decide

/-- Claim C7 (amended): `delete(x)` when `x` is absent from MarkerStore is
a completely silent no-op: it stages nothing, changes no state at all
(hence no later commit can create an entry on its behalf), does not crash,
and emits no report. -/
theorem C7_delete_absent_silent (s : RegularMarkerServer) (x : String)
    (hx : lookupKey s.marker_contexts x = none) :
    RegularMarkerServer.delete s x = (s, []) := by
  unfold RegularMarkerServer.delete
  rw [hx]

/-- Witness for C7: the amended theorem applied at a server already
holding an unrelated marker `b`. -/
theorem C7_witness :
    RegularMarkerServer.delete
        { topic := "t", marker_contexts := [("b", defaultMarker)],
          pending_updates := [] } "a"
      = ({ topic := "t", marker_contexts := [("b", defaultMarker)],
           pending_updates := [] }, []) :=
  C7_delete_absent_silent _ "a" (by decide)

/-- Claim C10: when `apply_changes` applies a staged Modify update for a
name present in `marker_contexts`, the stored record changes only in its
`pose`, `header` and `action` fields (pose and header are taken from the
staged marker, action becomes MODIFY); every other field — scale, color,
type, text and the rest of the payload — keeps its previous value, which
the `{old with ...}` form of the conclusion expresses. -/
theorem C10_modify_frame (topic : String) (mc : List (String × Marker))
    (name : String) (m old : Marker) (h : lookupKey mc name = some old) :
    lookupKey (RegularMarkerServer.apply_changes
        { topic := topic, marker_contexts := mc,
          pending_updates :=
            [(name, { update_type := UpdateType.Modify, marker := m })] }).1.marker_contexts
        name
      = some { old with
          pose := m.pose, header := m.header, action := Marker.MODIFY } := by
  have hc : containsKey mc name = true := by
    unfold containsKey
    rw [h]
    rfl
  simp only [RegularMarkerServer.apply_changes, applyChangesLoop, applyUpdate,
    hc, if_true, List.cons_ne_nil, if_false]
  rw [lookupKey_modifyKey_self, h]
  rfl

/-- Witness for C10: a Modify staged for a stored record with a marked
payload; the pose is copied from the staged marker while text and the
other payload fields keep their stored values. -/
theorem C10_witness :
    lookupKey (RegularMarkerServer.apply_changes
        { topic := "t",
          marker_contexts :=
            [("a", { defaultMarker with text := "keep", action := 2 })],
          pending_updates :=
            [("a", { update_type := UpdateType.Modify,
                     marker := { defaultMarker with
                       pose := { position := { x := 1, y := 0, z := 0 }
                                 orientation := { x := 0, y := 0, z := 0, w := 1 } }
                       text := "ignored" } })] }).1.marker_contexts "a"
      = some { defaultMarker with
          pose := { position := { x := 1, y := 0, z := 0 }
                    orientation := { x := 0, y := 0, z := 0, w := 1 } }
          text := "keep"
          action := Marker.MODIFY } :=
  C10_modify_frame "t"
    [("a", { defaultMarker with text := "keep", action := 2 })] "a"
    { defaultMarker with
        pose := { position := { x := 1, y := 0, z := 0 }
                  orientation := { x := 0, y := 0, z := 0, w := 1 } }
        text := "ignored" }
    { defaultMarker with text := "keep", action := 2 }
    (by decide)

theorem lookupKey_eq_none_of_forall_ne {α : Type} {l : List (String × α)}
    {x : String} (h : ∀ p ∈ l, p.1 ≠ x) : lookupKey l x = none := by
  induction l with
  | nil => rfl
  | cons p rest ih =>
      obtain ⟨a, b⟩ := p
      have hax : a ≠ x := h (a, b) (List.mem_cons_self _ _)
      simp only [lookupKey, if_neg hax]
      exact ih (fun p hp => h p (List.mem_cons_of_mem _ hp))

/-- Claim C2 (counterexample): the claim fixes the wire encoding as
`1 = Add` and `3 = Delete`.  On the code, a record committed through a
staged Add carries action code `0` (not `1`), and a record committed
through a staged Delete carries action code `2` (not `3`) — the ROS
`Marker` constants the code uses are `ADD = 0` and `DELETE = 2`. -/
theorem C2_counterexample :
    (lookupKey
        ((initialServer "t").insert "a" defaultMarker).1.apply_changes.1.marker_contexts
        "a"
      = some { defaultMarker with action := 0 })
    ∧ ¬((0 : Int) = 1)
    ∧ (lookupKey (RegularMarkerServer.apply_changes
          { topic := "t",
            marker_contexts := [("a", { defaultMarker with action := 0 })],
            pending_updates :=
              [("a", { update_type := UpdateType.Delete,
                       marker := defaultMarker })] }).1.marker_contexts "a"
        = some { defaultMarker with action := 2 })
    ∧ ¬((2 : Int) = 3) := by decide

/-- Claim C2 (amended): the action codes actually on the wire are the ROS
Marker constants used by `apply_changes` — `ADD = 0`, `MODIFY = 0` (the
same value: a kept record simply retains its last code), `DELETE = 2`,
`DELETEALL = 3` — and one successful publish tick emits every stored
record unchanged and then removes exactly the records carrying the DELETE
code, clearing the store exactly when some record carries the DELETEALL
code. -/
theorem C2_action_codes (m : List (String × Marker))
    (h : (m.map Prod.fst).Nodup) :
    Marker.ADD = 0 ∧ Marker.MODIFY = 0 ∧ Marker.DELETE = 2 ∧
    Marker.DELETEALL = 3 ∧
    RegularMarkerServer.marker_array_publisher_tick true m
      = TickResult.ticked (m.map Prod.snd)
          (if m.any (fun p => p.2.action == Marker.DELETEALL) then []
           else m.filter (fun p => !(p.2.action == Marker.DELETE))) := by
  refine ⟨rfl, rfl, rfl, rfl, ?_⟩
  have ht : RegularMarkerServer.marker_array_publisher_tick true m
      = TickResult.ticked (m.map Prod.snd) (RegularMarkerServer.cleanup m) :=
    rfl
  rw [ht, cleanup_eq m h]
  rfl

/-- Witness for C2: the amended theorem at a two-record store, one record
Delete-tagged (code 2) and one untouched. -/
theorem C2_witness :
    Marker.ADD = 0 ∧ Marker.MODIFY = 0 ∧ Marker.DELETE = 2 ∧
    Marker.DELETEALL = 3 ∧
    RegularMarkerServer.marker_array_publisher_tick true
        [("a", { defaultMarker with action := 2 }), ("b", defaultMarker)]
      = TickResult.ticked
          ([("a", { defaultMarker with action := 2 }),
            ("b", defaultMarker)].map Prod.snd)
          (if [("a", { defaultMarker with action := 2 }),
               ("b", defaultMarker)].any
                (fun p => p.2.action == Marker.DELETEALL) then []
           else [("a", { defaultMarker with action := 2 }),
                 ("b", defaultMarker)].filter
                  (fun p => !(p.2.action == Marker.DELETE))) :=
  C2_action_codes _ (by decide)

/-- Claim C8: one successful publish tick, with no interleaved commits,
publishes the whole snapshot and transforms MarkerStore as follows: if
some record carries DELETEALL the store becomes empty; otherwise exactly
the records carrying DELETE are removed and every other record stays;
hence any Delete-tagged record's id is absent from the store after the
tick. -/
theorem C8_tick_cleanup (m : List (String × Marker))
    (h : (m.map Prod.fst).Nodup) :
    RegularMarkerServer.marker_array_publisher_tick true m
        = TickResult.ticked (m.map Prod.snd) (RegularMarkerServer.cleanup m)
    ∧ ((∃ p ∈ m, p.2.action = Marker.DELETEALL) →
        RegularMarkerServer.cleanup m = [])
    ∧ ((∀ p ∈ m, p.2.action ≠ Marker.DELETEALL) →
        RegularMarkerServer.cleanup m
          = m.filter (fun p => !(p.2.action == Marker.DELETE)))
    ∧ (∀ q ∈ m, q.2.action = Marker.DELETE →
        lookupKey (RegularMarkerServer.cleanup m) q.1 = none) := by
  refine ⟨rfl, ?_, ?_, ?_⟩
  · intro hex
    exact cleanupLoop_three m m hex
  · intro hall
    have hnot : ¬(m.any (fun p => p.2.action == 3) = true) := by
      intro hany
      obtain ⟨p, hp, hp3⟩ := List.any_eq_true.mp hany
      exact hall p hp (beq_iff_eq.mp hp3)
    rw [cleanup_eq m h, if_neg hnot]
    rfl
  · intro q hq hq2
    by_cases h3 : ∃ p ∈ m, p.2.action = 3
    · have hc : RegularMarkerServer.cleanup m = [] := cleanupLoop_three m m h3
      rw [hc]
      rfl
    · have hnot : ¬(m.any (fun p => p.2.action == 3) = true) := by
        intro hany
        obtain ⟨p, hp, hp3⟩ := List.any_eq_true.mp hany
        exact h3 ⟨p, hp, beq_iff_eq.mp hp3⟩
      rw [cleanup_eq m h, if_neg hnot]
      apply lookupKey_eq_none_of_forall_ne
      intro p hp hpx
      obtain ⟨hpm, hpred⟩ := List.mem_filter.mp hp
      have hpq : p = q := eq_of_mem_of_mem_of_nodupKeys h hpm hq hpx
      rw [hpq, hq2] at hpred
      exact absurd hpred (by decide)

/-- Witness for C8: the tick theorem at a two-record store with one
Delete-tagged record and no DeleteAll-tagged record. -/
theorem C8_witness :
    RegularMarkerServer.marker_array_publisher_tick true
        [("a", { defaultMarker with action := 2 }), ("b", defaultMarker)]
        = TickResult.ticked
            ([("a", { defaultMarker with action := 2 }),
              ("b", defaultMarker)].map Prod.snd)
            (RegularMarkerServer.cleanup
              [("a", { defaultMarker with action := 2 }),
               ("b", defaultMarker)])
    ∧ ((∃ p ∈ [("a", { defaultMarker with action := 2 }),
                ("b", defaultMarker)], p.2.action = Marker.DELETEALL) →
        RegularMarkerServer.cleanup
            [("a", { defaultMarker with action := 2 }),
             ("b", defaultMarker)] = [])
    ∧ ((∀ p ∈ [("a", { defaultMarker with action := 2 }),
               ("b", defaultMarker)], p.2.action ≠ Marker.DELETEALL) →
        RegularMarkerServer.cleanup
            [("a", { defaultMarker with action := 2 }),
             ("b", defaultMarker)]
          = [("a", { defaultMarker with action := 2 }),
             ("b", defaultMarker)].filter
              (fun p => !(p.2.action == Marker.DELETE)))
    ∧ (∀ q ∈ [("a", { defaultMarker with action := 2 }),
              ("b", defaultMarker)], q.2.action = Marker.DELETE →
        lookupKey (RegularMarkerServer.cleanup
            [("a", { defaultMarker with action := 2 }),
             ("b", defaultMarker)]) q.1 = none) :=
  C8_tick_cleanup _ (by decide)

/-- Claim C9: `apply_changes` never removes an entry from MarkerStore —
every id present before the commit is still present after it (a staged
Delete only re-tags the record) — and a commit with an empty stage leaves
the whole server state unchanged. -/
theorem C9_commit_never_removes (s : RegularMarkerServer) :
    (∀ x, containsKey s.marker_contexts x = true →
        containsKey s.apply_changes.1.marker_contexts x = true)
    ∧ (s.pending_updates = [] → s.apply_changes.1 = s) := by
  constructor
  · intro x hx
    by_cases hp : s.pending_updates = []
    · simp only [RegularMarkerServer.apply_changes, if_pos hp]
      exact hx
    · simp only [RegularMarkerServer.apply_changes, if_neg hp]
      exact containsKey_applyChangesLoop _ _ x hx
  · intro hp
    simp only [RegularMarkerServer.apply_changes, if_pos hp]

/-- Witness for C9: a Delete-tagged commit keeps the id present, and a
commit on the fresh (empty-stage) server is the identity. -/
theorem C9_witness :
    containsKey (RegularMarkerServer.apply_changes
        { topic := "t",
          marker_contexts := [("a", defaultMarker)],
          pending_updates :=
            [("a", { update_type := UpdateType.Delete,
                     marker := defaultMarker })] }).1.marker_contexts "a" = true
    ∧ (RegularMarkerServer.apply_changes (initialServer "t")).1
        = initialServer "t" :=
  ⟨(C9_commit_never_removes _).1 "a" (by decide),
   (C9_commit_never_removes _).2 (by decide)⟩

theorem all_insertKey {α : Type} (P : String × α → Bool)
    (l : List (String × α)) (k : String) (v : α)
    (hl : l.all P = true) (hv : P (k, v) = true) :
    (insertKey l k v).all P = true := by
  induction l with
  | nil => simp [insertKey, hv]
  | cons hd rest ih =>
      obtain ⟨a, b⟩ := hd
      rw [List.all_cons, Bool.and_eq_true] at hl
      by_cases hk : a = k
      · simp only [insertKey, if_pos hk, List.all_cons, Bool.and_eq_true]
        exact ⟨hv, hl.2⟩
      · simp only [insertKey, if_neg hk, List.all_cons, Bool.and_eq_true]
        exact ⟨hl.1, ih hl.2⟩

theorem stage_no_deleteAll_runOp (s : RegularMarkerServer) (op : Op)
    (h : s.pending_updates.all
        (fun p => !(p.2.update_type == UpdateType.DeleteAll)) = true) :
    (runOp s op).pending_updates.all
        (fun p => !(p.2.update_type == UpdateType.DeleteAll)) = true := by
  cases op with
  | insertOp name m =>
      simp only [runOp, RegularMarkerServer.insert]
      exact all_insertKey _ _ _ _ h rfl
  | deleteOp name =>
      simp only [runOp, RegularMarkerServer.delete]
      cases hl : lookupKey s.marker_contexts name with
      | none => exact h
      | some mc => exact all_insertKey _ _ _ _ h rfl
  | applyChangesOp =>
      by_cases hp : s.pending_updates = []
      · simp only [runOp, RegularMarkerServer.apply_changes, if_pos hp]
        exact h
      · simp only [runOp, RegularMarkerServer.apply_changes, if_neg hp]
        rfl

/-- Claim C3 (supporting theorem for the code_bug): the public surface of
`RegularMarkerServer` consists of `new`, `insert`, `delete` and
`apply_changes` only — there is no `deleteAll` operation — and no
sequence of public operations starting from the fresh server can ever
place a `DeleteAll` update in the stage: the `UpdateType::DeleteAll`
branch of `apply_changes` is unreachable through the public surface. -/
theorem C3_no_deleteAll_reachable (topic : String) (ops : List Op) :
    ((runOps (initialServer topic) ops).pending_updates.all
        (fun p => !(p.2.update_type == UpdateType.DeleteAll))) = true := by
  have main : ∀ (l : List Op) (s : RegularMarkerServer),
      s.pending_updates.all
          (fun p => !(p.2.update_type == UpdateType.DeleteAll)) = true →
      (runOps s l).pending_updates.all
          (fun p => !(p.2.update_type == UpdateType.DeleteAll)) = true := by
    intro l
    induction l with
    | nil => intro s h; exact h
    | cons op rest ih =>
        intro s h
        exact ih _ (stage_no_deleteAll_runOp s op h)
  exact main ops (initialServer topic) rfl

/-- Claim C4 (counterexample): the claim demands that after a commit
whose stage contains a DeleteAll, every record in MarkerStore carries
action DELETEALL regardless of the order in which the staged updates are
applied.  The stage iteration order is unspecified; with the DeleteAll
applied first and an Add for a fresh id applied after it, the committed
store holds that record with action ADD, not DELETEALL. -/
theorem C4_counterexample :
    ((RegularMarkerServer.apply_changes
        { topic := "t", marker_contexts := [],
          pending_updates :=
            [("z", { update_type := UpdateType.DeleteAll,
                     marker := defaultMarker }),
             ("a", { update_type := UpdateType.Add,
                     marker := defaultMarker })] }).1.marker_contexts
      = [("a", { defaultMarker with action := Marker.ADD })])
    ∧ ¬(Marker.ADD = Marker.DELETEALL) := by decide

/-- Claim C4 (amended): when the staged DeleteAll update is applied after
all other staged updates of the commit pass (it is last in the stage's
iteration order), every record in MarkerStore carries action DELETEALL
after the commit, whatever the starting store, the other staged updates
and their order. -/
theorem C4_deleteAll_last_wins (topic : String)
    (mc : List (String × Marker)) (pending : List (String × UpdateContext))
    (name : String) (m : Marker) :
    ∀ p ∈ (RegularMarkerServer.apply_changes
        { topic := topic, marker_contexts := mc,
          pending_updates := pending ++
            [(name, { update_type := UpdateType.DeleteAll,
                      marker := m })] }).1.marker_contexts,
      p.2.action = Marker.DELETEALL := by
  intro p hp
  have hne : pending ++
      [(name, { update_type := UpdateType.DeleteAll, marker := m })] ≠ [] := by
    simp
  simp only [RegularMarkerServer.apply_changes, if_neg hne] at hp
  rw [applyChangesLoop_append, applyChangesLoop_cons] at hp
  simp only [applyChangesLoop, applyUpdate] at hp
  obtain ⟨q, _, hq⟩ := List.mem_map.mp hp
  rw [← hq]

/-- Witness for C4: a DeleteAll staged alone (hence last) re-tags the one
stored record with DELETEALL. -/
theorem C4_witness :
    (("x", { defaultMarker with action := Marker.DELETEALL })
        ∈ (RegularMarkerServer.apply_changes
            { topic := "t",
              marker_contexts := [("x", defaultMarker)],
              pending_updates :=
                [("z", { update_type := UpdateType.DeleteAll,
                         marker := defaultMarker })] }).1.marker_contexts)
    ∧ (("x", { defaultMarker with action := Marker.DELETEALL })
        : String × Marker).2.action = Marker.DELETEALL :=
  ⟨by decide,
   C4_deleteAll_last_wins "t" [("x", defaultMarker)] [] "z" defaultMarker
     ("x", { defaultMarker with action := Marker.DELETEALL }) (by decide)⟩

/-- Claim C5 (counterexample): the claim quantifies over every starting
state of the store.  Starting from a store that already binds `a` (with a
different payload and a Delete tag), `insert("a", ...)` followed by
`apply_changes` leaves the old record untouched — the Add branch of the
commit uses `or_insert_with`, so neither the payload nor the action
becomes the inserted one. -/
theorem C5_counterexample :
    ((RegularMarkerServer.apply_changes
        ((RegularMarkerServer.insert
            { topic := "t",
              marker_contexts :=
                [("a", { defaultMarker with text := "old", action := 2 })],
              pending_updates := [] } "a"
            { defaultMarker with text := "new" }).1)).1.marker_contexts
      = [("a", { defaultMarker with text := "old", action := 2 })])
    ∧ ¬(({ defaultMarker with text := "old", action := 2 } : Marker).text
        = ({ defaultMarker with text := "new" } : Marker).text)
    ∧ ¬(({ defaultMarker with text := "old", action := 2 } : Marker).action
        = Marker.ADD) := by decide

/-- Claim C5 (amended): for every id `x` absent from MarkerStore and every
staged set (with the map's unique keys) containing no DeleteAll update,
`insert(x, m)` followed by `apply_changes` leaves MarkerStore containing
`x` bound to the payload `m` tagged with action ADD. -/
theorem C5_insert_commit_fresh (topic x : String) (m : Marker)
    (mc : List (String × Marker)) (pending : List (String × UpdateContext))
    (hx : lookupKey mc x = none)
    (hnodup : (pending.map Prod.fst).Nodup)
    (hda : ∀ p ∈ pending, p.2.update_type ≠ UpdateType.DeleteAll) :
    lookupKey (RegularMarkerServer.apply_changes
        ((RegularMarkerServer.insert
            { topic := topic, marker_contexts := mc,
              pending_updates := pending } x m).1)).1.marker_contexts x
      = some { m with action := Marker.ADD } := by
  obtain ⟨l1, l2, heq, h1, h2, hmem⟩ :=
    insertKey_decomp pending x
      { update_type := UpdateType.Add, marker := m } hnodup
  have hne : insertKey pending x
      { update_type := UpdateType.Add, marker := m } ≠ [] :=
    insertKey_ne_nil _ _ _
  simp only [RegularMarkerServer.insert, RegularMarkerServer.apply_changes,
    if_neg hne]
  rw [heq, applyChangesLoop_append, applyChangesLoop_cons]
  have hmid : lookupKey (applyChangesLoop mc l1).1 x = none := by
    rw [lookupKey_applyChangesLoop_of_ne x l1 mc h1
      (fun p hp => hda p (hmem p (Or.inl hp)))]
    exact hx
  rw [lookupKey_applyChangesLoop_of_ne x l2 _ h2
    (fun p hp => hda p (hmem p (Or.inr hp)))]
  exact lookupKey_applyUpdate_add_of_none m hmid

/-- Witness for C5: inserting a fresh id while an unrelated Modify is
already staged commits the new payload tagged ADD. -/
theorem C5_witness :
    lookupKey (RegularMarkerServer.apply_changes
        ((RegularMarkerServer.insert
            { topic := "t", marker_contexts := [("b", defaultMarker)],
              pending_updates :=
                [("b", { update_type := UpdateType.Modify,
                         marker := defaultMarker })] } "a"
            { defaultMarker with text := "fresh" }).1)).1.marker_contexts "a"
      = some { defaultMarker with text := "fresh", action := Marker.ADD } :=
  C5_insert_commit_fresh "t" "a" { defaultMarker with text := "fresh" }
    [("b", defaultMarker)]
    [("b", { update_type := UpdateType.Modify, marker := defaultMarker })]
    (by decide) (by decide) (by decide)
